import Mathlib

/-!
Shallow embedding of the markov-chain library (two variants).

The repository contains two alternative implementations of a Markov-chain
text generator:

* the String-Corpus variant (src/index.js): a corpus of overlapping
  n-token windows of literal strings, and
* the Indexed-Dictionary variant (src/unnamed/part_001): a dictionary of
  interned words and a corpus of whole sentences of dictionary indices.

JavaScript arrays are mutable reference values, and several of the claims
(deep-copy round trips, frame conditions of `generate`) are about aliasing
and mutation, so the embedding threads an explicit heap of array cells:
a chain holds references (cell addresses) to its corpus rows, and the
array operations of the source (`push`, `reverse`, `slice`, spread
copies, ...) are translated as reads, writes and allocations on that
heap.  Strings, numbers and booleans are immutable in JavaScript and are
embedded as plain values.  Randomness (`Math.floor(Math.random() * len)`,
always an index in `[0, len)`) is an oracle `Nat → Nat` consulted at the
i-th random draw and reduced modulo the candidate-list length; unbounded
`while` loops take fuel.  A run ends in `.ok s` (the function returned
the string `s`), `.crash` (the source performs an undefined member
access, e.g. `undefined.slice`), or `.out` (fuel exhausted; never the
behaviour of a terminating source run).
-/

/-- Result of one call to a generation operation. -/
inductive GenRes where
  | ok (s : String)
  | crash
  | out
deriving DecidableEq, Repr

/-- A heap of JavaScript array cells, addressed by allocation order.
`α` is the element type of the arrays (`String` for the string-corpus
variant, `Nat` for the indexed variant). -/
structure Heap (α : Type) where
  cells : List (List α)
deriving DecidableEq, Repr

namespace Heap

/-- The empty heap. -/
def empty (α : Type) : Heap α := ⟨[]⟩

/-- Read the array stored at address `r` (reads of unallocated
addresses do not occur in the reachable states we consider). -/
def read (h : Heap α) (r : Nat) : List α := h.cells.getD r []

/-- Overwrite the array stored at address `r`. -/
def write (h : Heap α) (r : Nat) (v : List α) : Heap α := ⟨h.cells.set r v⟩

/-- Allocate a fresh array cell holding `v`; returns the new heap and
the fresh address. -/
def alloc (h : Heap α) (v : List α) : Heap α × Nat :=
  (⟨h.cells ++ [v]⟩, h.cells.length)

/-- Allocate one fresh cell per element of `vs`; returns the new heap
and the list of fresh addresses, in order. -/
def allocList (h : Heap α) (vs : List (List α)) : Heap α × List Nat :=
  (⟨h.cells ++ vs⟩, List.range' h.cells.length vs.length)

/-- In-place append of one element to the array at `r`
(JavaScript `arr.push(x)` on the cell `r`). -/
def pushCell (h : Heap α) (r : Nat) (x : α) : Heap α :=
  h.write r (h.read r ++ [x])

end Heap

/-- `Math.floor(Math.random() * arr.length)` indexing: a uniform draw
over `[0, arr.length)` realised by reducing the oracle value modulo the
length; for an empty array the JavaScript access `arr[NaN]` yields
`undefined`, embedded as `none`. -/
def getRandom (arr : List α) (r : Nat) : Option α :=
  arr.get? (r % arr.length)

/-- JavaScript `s.repeat(n)` on strings. -/
def jsRepeat (s : String) (n : Nat) : String :=
  String.join (List.replicate n s)

/-- Worker for `jsSplit`, scanning the character list left to right and
cutting at each (leftmost, non-overlapping) occurrence of `sep`.  The
fuel is structural bookkeeping only; with `fuel = cs.length` the second
branch is unreachable, since every step consumes at least one character. -/
def splitGo (sep : List Char) : Nat → List Char → List Char → List (List Char)
  | _, acc, [] => [acc.reverse]
  | 0, acc, cs => [acc.reverse ++ cs]
  | fuel + 1, acc, c :: cs =>
    if sep.isPrefixOf (c :: cs) then
      acc.reverse :: splitGo sep fuel [] ((c :: cs).drop sep.length)
    else
      splitGo sep fuel (c :: acc) cs

/-- JavaScript `s.split(sep)` for a non-empty separator string (every
call in the repository uses the non-empty separators `' '` or the
chain's `separation`); on the empty string it yields `[""]`, like
JavaScript.  (JavaScript's `split('')` splits into characters; that case
is not exercised and the embedding returns `[s]` there.) -/
def jsSplit (s sep : String) : List String :=
  if sep = "" then [s]
  else (splitGo sep.data s.data.length [] s.data).map String.mk

/-- JavaScript `s.trim()`: strip leading and trailing whitespace. -/
def jsTrim (s : String) : String :=
  ⟨((s.data.dropWhile Char.isWhitespace).reverse.dropWhile Char.isWhitespace).reverse⟩

/-! ## String-Corpus variant (src/index.js) -/

namespace SChain

/-- The string-corpus chain.  `corpusRefs` holds the heap addresses of
the window arrays (`this.corpus` is an array of arrays; its rows live in
the heap).  Field `endTok` embeds the source's `this.end` (`end` is a
Lean keyword). -/
structure Chain where
  nGrams : Nat
  start : String
  endTok : String
  separation : String
  corpusRefs : List Nat
deriving DecidableEq, Repr

/-- `new MarkovChain(nGrams = 3, start = '%startf%', end = '%endf%', separation = ' ')`:
`this.nGrams = nGrams > 1 ? nGrams : 3`, the rest stored as given, empty corpus. -/
def construct (nGrams : Nat := 3) (start : String := "%startf%")
    (endTok : String := "%endf%") (separation : String := " ") : Chain :=
  { nGrams := if nGrams > 1 then nGrams else 3
    start := start
    endTok := endTok
    separation := separation
    corpusRefs := [] }

/-- The padded word array built by `update`:
`[`${start}${separation}`.repeat(nGrams - 1), ...text.split(separation), end]`.
Note that the repeated start delimiters form ONE array element, and the
end delimiter appears once. -/
def paddedWords (c : Chain) (text : String) : List String :=
  [jsRepeat (c.start ++ c.separation) (c.nGrams - 1)] ++ jsSplit text c.separation ++ [c.endTok]

/-- `update(text)`: no-op on whitespace-only text, otherwise for every
index `i < words.length - 1` push the window `words.slice(i, i + nGrams)`
(a fresh array) onto `this.corpus`.  Each pushed window is allocated as
a fresh heap cell and its address appended to `corpusRefs`. -/
def update (c : Chain) (text : String) (h : Heap String) : Chain × Heap String :=
  if (jsTrim text).length = 0 then (c, h)
  else
    let words := paddedWords c text
    let wins := (List.range (words.length - 1)).map fun i => (words.drop i).take c.nGrams
    ({ c with corpusRefs := c.corpusRefs ++ (h.allocList wins).2 }, (h.allocList wins).1)

/-- The corpus as values: the window arrays the chain's addresses point to. -/
def corpusVal (c : Chain) (h : Heap String) : List (List String) :=
  c.corpusRefs.map h.read

/-- The body of `generate`'s `while` loop, with fuel.  `w` is the address
of the local `words` array, `k` the number of random draws made so far.
`words` is non-empty throughout (it starts as `[start]` and only grows),
so the `getLast? = none` branch is unreachable; it is mapped to `.crash`,
which is also what the source run would eventually do from an
`undefined` tail. -/
def genLoop (c : Chain) (oracle : Nat → Nat) :
    Nat → Nat → Nat → Heap String → Heap String × GenRes
  | 0, _, _, h => (h, .out)
  | fuel + 1, w, k, h =>
    match (h.read w).getLast? with
    | none => (h, .crash)
    | some last =>
      if last = c.endTok then
        -- words.shift(); words.pop(); return words.join(this.separation)
        let h1 := h.write w ((h.read w).drop 1)
        let h2 := h1.write w ((h1.read w).dropLast)
        (h2, .ok (String.intercalate c.separation (h2.read w)))
      else
        -- const nextChains = this.corpus.filter(chain => chain[0] === words[words.length - 1])
        let nextChains := c.corpusRefs.filter fun r => (h.read r).head? = some last
        match getRandom nextChains (oracle k) with
        | none => (h, .crash)   -- nextChain is undefined; .slice(1) throws
        | some r =>
          -- words.push(...nextChain.slice(1))
          let h' := h.write w (h.read w ++ (h.read r).drop 1)
          genLoop c oracle fuel w (k + 1) h'

/-- `generate(start = this.start)`: empty corpus returns `''`; otherwise
allocate the local `words = [start]` and run the loop. -/
def generate (c : Chain) (oracle : Nat → Nat) (fuel : Nat) (h : Heap String)
    (start : String := c.start) : Heap String × GenRes :=
  if c.corpusRefs.length = 0 then (h, .ok "")
  else
    genLoop c oracle fuel (h.alloc [start]).2 0 (h.alloc [start]).1

/-- The serialization record returned by `toJSON()`. -/
structure Record where
  nGrams : Nat
  start : String
  endTok : String
  separation : String
  corpusRefs : List Nat
deriving DecidableEq, Repr

/-- `toJSON()`: `corpus: [...this.corpus]` copies the OUTER array only;
the record's rows are the same heap cells as the chain's. -/
def toJSON (c : Chain) : Record :=
  { nGrams := c.nGrams, start := c.start, endTok := c.endTok
    separation := c.separation, corpusRefs := c.corpusRefs }

/-- `MarkovChain.fromJSON(json)`: construct from the record's scalar
fields, then `markovChain.corpus = [...json.corpus]` — again an
outer-array copy sharing the row cells. -/
def fromJSON (j : Record) : Chain :=
  { construct j.nGrams j.start j.endTok j.separation with corpusRefs := j.corpusRefs }

end SChain

/-! ## Indexed-Dictionary variant (src/unnamed/part_001) -/

namespace IChain

/-- The stored default generation config (`this.config`). -/
structure Config where
  fromWord : String
  grams : Nat
  backward : Bool
deriving DecidableEq, Repr

/-- A generation config supplied to `generate`; each field may be absent
(JavaScript `undefined`).  `fromWord` embeds the source's `from` field
(`from` is a Lean keyword). -/
structure GenCfg where
  fromWord : Option String := none
  grams : Option Nat := none
  backward : Option Bool := none
deriving DecidableEq, Repr

/-- The indexed chain: `corpusRefs` holds the heap addresses of the
sentence arrays (each a list of dictionary indices); the dictionary and
config are immutable-element values. -/
structure Chain where
  corpusRefs : List Nat
  dictionary : List String
  config : Config
deriving DecidableEq, Repr

/-- `new MarkovChain()` with the default empty base:
`corpus = []`, `dictionary = []`, `config = {from: '', grams: 2, backward: false}`. -/
def construct : Chain :=
  { corpusRefs := [], dictionary := [], config := ⟨"", 2, false⟩ }

/-- One step of `update`'s `forEach` over the words: look the word up in
the dictionary (`indexOf`, absent iff `-1` iff not contained), push a
fresh entry when absent, and append the resolved index to the sentence
under construction. -/
def internStep (st : List Nat × List String) (w : String) : List Nat × List String :=
  if st.2.contains w then (st.1 ++ [st.2.indexOf w], st.2)
  else (st.1 ++ [st.2.length], st.2 ++ [w])

/-- `update(sentence)`: split on `' '`, push a fresh (initially empty)
sentence array onto the corpus, then intern each word and append its
index to that array.  The per-word pushes are embedded as the fold
`internStep`; the freshly pushed corpus row ends up holding exactly the
folded index list, so it is allocated with its final contents. -/
def update (c : Chain) (sentence : String) (h : Heap Nat) : Chain × Heap Nat :=
  let words := jsSplit sentence " "
  let st := words.foldl internStep ([], c.dictionary)
  ({ c with corpusRefs := c.corpusRefs ++ [(h.alloc st.1).2], dictionary := st.2 },
    (h.alloc st.1).1)

/-- `contains(word)`: `this.dictionary.includes(word)`. -/
def containsW (c : Chain) (w : String) : Bool :=
  c.dictionary.contains w

/-- The corpus as values. -/
def corpusVal (c : Chain) (h : Heap Nat) : List (List Nat) :=
  c.corpusRefs.map h.read

/-- JavaScript `x || d` for a possibly-absent string field: the empty
string is falsy and falls back to the default. -/
def jsOrStr (x : Option String) (d : String) : String :=
  match x with
  | some s => if s = "" then d else s
  | none => d

/-- JavaScript `x || d` for a possibly-absent numeric field: `0` is
falsy and falls back to the default. -/
def jsOrNat (x : Option Nat) (d : Nat) : Nat :=
  match x with
  | some k => if k = 0 then d else k
  | none => d

/-- JavaScript `x || d` for a possibly-absent boolean field: `false`
falls back to the default. -/
def jsOrBool (x : Option Bool) (d : Bool) : Bool :=
  match x with
  | some b => if b then b else d
  | none => d

/-- The `while (!done)` loop of `generate`, with fuel.  `s` is the
address of the local `sentence` array, `k` the number of random draws
made so far.  When `done` the loop exits and the translation/join after
the loop runs (`sentence.reverse()` mutates the cell in the backward
case); `dictionary[i]` out of range is `undefined`, which
`Array.prototype.join` renders as the empty string, hence `getD i ""`.
`sentence` is non-empty throughout (it is seeded before the loop), so
the `getLast? = none` branch is unreachable; the source would read
`undefined` there and crash at the subsequent `chain.indexOf`. -/
def genLoop (c : Chain) (grams : Nat) (backward : Bool) (oracle : Nat → Nat) :
    Nat → Nat → Nat → Bool → Heap Nat → Heap Nat × GenRes
  | 0, _, _, _, h => (h, .out)
  | fuel + 1, s, k, done, h =>
    if done then
      if backward then
        let h' := h.write s ((h.read s).reverse)
        (h', .ok (String.intercalate " " ((h'.read s).map fun i => c.dictionary.getD i "")))
      else
        (h, .ok (String.intercalate " " ((h.read s).map fun i => c.dictionary.getD i "")))
    else
      match (h.read s).getLast? with
      | none => (h, .crash)
      | some last =>
        -- const possibleChains = this.corpus.filter(s => s.includes(last))
        let possible := c.corpusRefs.filter fun r => (h.read r).contains last
        match getRandom possible (oracle k) with
        | none => (h, .crash)   -- chain is undefined; chain.indexOf throws
        | some r =>
          let chain := h.read r
          let wordIndex := chain.indexOf last
          -- backward: chain.slice(start >= 0 ? start : 0, wordIndex).reverse()
          -- forward:  chain.slice(wordIndex + 1, wordIndex + grams + 1)
          -- (natural subtraction realises the clamp `start >= 0 ? start : 0`)
          let seq :=
            if backward then
              ((chain.drop (wordIndex - grams)).take (wordIndex - (wordIndex - grams))).reverse
            else
              (chain.drop (wordIndex + 1)).take grams
          let h' := h.write s (h.read s ++ seq)
          -- done = wordIndex - grams <= 0 (backward) / wordIndex + grams >= chain.length - 1
          let done' := if backward then wordIndex ≤ grams else chain.length - 1 ≤ wordIndex + grams
          genLoop c grams backward oracle fuel s (k + 1) done' h'

/-- The body of `generate` after the three `const ... = config.x || this.config.x`
resolutions: return `''` for an unknown non-empty `from`, allocate the
local `sentence` array, seed it (random corpus row's first/last index
when `from` is empty — the random draw on an empty corpus yields
`undefined` and the member access crashes — else `dictionary.indexOf(from)`),
then run the loop with `done = false`. -/
def generateResolved (c : Chain) (fromW : String) (grams : Nat) (backward : Bool)
    (oracle : Nat → Nat) (fuel : Nat) (h : Heap Nat) : Heap Nat × GenRes :=
  if fromW ≠ "" ∧ ¬ fromW ∈ c.dictionary then (h, .ok "")
  else
    let h1 := (h.alloc []).1
    let s := (h.alloc []).2
    if fromW.length = 0 then
      match getRandom c.corpusRefs (oracle 0) with
      | none => (h1, .crash)   -- random row is undefined; random[...] throws
      | some r =>
        match (if backward then (h1.read r).getLast? else (h1.read r).head?) with
        | none => (h1, .crash) -- empty row: undefined seed, loop crashes at once
        | some idx => genLoop c grams backward oracle fuel s 1 false (h1.pushCell s idx)
    else
      genLoop c grams backward oracle fuel s 0 false
        (h1.pushCell s (c.dictionary.indexOf fromW))

/-- `generate(config = {})`: the three fields of the effective config
are resolved independently by `||`-fallback (source lines
`const from = config.from || this.config.from` etc.), then the body runs. -/
def generate (c : Chain) (cfg : GenCfg) (oracle : Nat → Nat) (fuel : Nat)
    (h : Heap Nat) : Heap Nat × GenRes :=
  generateResolved c (jsOrStr cfg.fromWord c.config.fromWord)
    (jsOrNat cfg.grams c.config.grams) (jsOrBool cfg.backward c.config.backward)
    oracle fuel h

/-- The serialization record (`toJSON()` result / constructor base). -/
structure Record where
  corpusRefs : List Nat
  dictionary : List String
  config : Config
deriving DecidableEq, Repr

/-- `toJSON()`: `corpus.map(s => [...s])` copies every sentence array
into a fresh cell; `dictionary` and `config` are copied by value. -/
def toJSON (c : Chain) (h : Heap Nat) : Heap Nat × Record :=
  ((h.allocList (c.corpusRefs.map h.read)).1,
    ⟨(h.allocList (c.corpusRefs.map h.read)).2, c.dictionary, c.config⟩)

/-- `new MarkovChain(base)` for a record base: the constructor runs the
base through `JSON.stringify`/`JSON.parse`, so every sentence array of
the new chain is a fresh cell holding a value copy. -/
def constructFrom (j : Record) (h : Heap Nat) : Chain × Heap Nat :=
  (⟨(h.allocList (j.corpusRefs.map h.read)).2, j.dictionary, j.config⟩,
    (h.allocList (j.corpusRefs.map h.read)).1)

/-- Chain states reachable from the default constructor by a sequence
of `update` calls (the claims' "any sequence of learn calls"). -/
def runUpdates (texts : List String) : Chain × Heap Nat :=
  texts.foldl (fun p t => update p.1 t p.2) (construct, Heap.empty Nat)

/-- Well-formedness of an indexed chain state: corpus references point
into the heap, every index stored in a corpus row is a valid dictionary
position, and the dictionary has no duplicate entries. -/
def Inv (c : Chain) (h : Heap Nat) : Prop :=
  (∀ r ∈ c.corpusRefs, r < h.cells.length)
  ∧ (∀ r ∈ c.corpusRefs, ∀ i ∈ h.read r, i < c.dictionary.length)
  ∧ c.dictionary.Nodup

end IChain

namespace SChain

/-- Chain states reachable from the constructor by a sequence of
`update` calls. -/
def runUpdates (nGrams : Nat) (start endTok separation : String)
    (texts : List String) : Chain × Heap String :=
  texts.foldl (fun p t => update p.1 t p.2) (construct nGrams start endTok separation, Heap.empty String)

/-- The state after `new MarkovChain()` (defaults) and `update('hi')`:
the scenario of the repository's first `#generate()` test. -/
def hiState : Chain × Heap String := update construct "hi" (Heap.empty String)

end SChain

namespace IChain

/-- The state after learning `'hi everyone i am a test OwO'` on a fresh
indexed chain (the backward exact-output test scenario). -/
def tState : Chain × Heap Nat :=
  update construct "hi everyone i am a test OwO" (Heap.empty Nat)

/-- The state after learning `'hi am i a test OwO'` on a fresh indexed
chain (the forward test scenario). -/
def owoState : Chain × Heap Nat :=
  update construct "hi am i a test OwO" (Heap.empty Nat)

end IChain

/-!
## Theorems

Helper lemmas on the heap model, then one theorem per claim (with
counterexample and witness theorems where required).
-/

namespace Heap

theorem read_write_ne (h : Heap α) {r r' : Nat} (v : List α) (hne : r' ≠ r) :
    (h.write r' v).read r = h.read r := by
  simp only [read, write, List.getD_eq_getD_get?, List.get?_eq_getElem?]
  rw [List.getElem?_set_ne hne]

theorem read_write_self (h : Heap α) {r : Nat} (v : List α) (hr : r < h.cells.length) :
    (h.write r v).read r = v := by
  simp only [read, write, List.getD_eq_getD_get?, List.get?_eq_getElem?]
  rw [List.getElem?_set_eq_of_lt _ hr]
  rfl

theorem read_append (h : Heap α) (vs : List (List α)) {r : Nat} (hr : r < h.cells.length) :
    (Heap.mk (h.cells ++ vs)).read r = h.read r := by
  simp only [read, List.getD_append _ _ _ _ hr]

theorem read_pushCell_ne (h : Heap α) {r r' : Nat} (x : α) (hne : r' ≠ r) :
    (h.pushCell r' x).read r = h.read r :=
  read_write_ne h _ hne

/-- Fresh cells read back their initial contents, cell by cell. -/
theorem getD_append_range' :
    ∀ (cells : List (List α)) (vs : List (List α)),
      (List.range' cells.length vs.length).map (fun r => (cells ++ vs).getD r []) = vs := by
  intro cells vs
  induction vs generalizing cells with
  | nil => simp
  | cons v vs ih =>
    rw [List.length_cons, List.range'_succ, List.map_cons]
    refine congrArg₂ _ ?_ ?_
    · rw [List.getD_append_right _ _ _ _ (Nat.le_refl _), Nat.sub_self]
      rfl
    · have h1 : cells.length + 1 = (cells ++ [v]).length := by simp
      have h2 : cells ++ v :: vs = (cells ++ [v]) ++ vs := by simp
      rw [h1, h2, ih (cells ++ [v])]

theorem allocList_reads (h : Heap α) (vs : List (List α)) :
    (h.allocList vs).2.map (h.allocList vs).1.read = vs := by
  simp only [allocList]
  exact getD_append_range' h.cells vs

theorem allocList_read_old (h : Heap α) (vs : List (List α)) {r : Nat}
    (hr : r < h.cells.length) : (h.allocList vs).1.read r = h.read r :=
  read_append h vs hr

theorem allocList_mem_ge (h : Heap α) (vs : List (List α)) {r : Nat}
    (hr : r ∈ (h.allocList vs).2) : h.cells.length ≤ r :=
  (List.mem_range'_1.1 hr).1

theorem allocList_length (h : Heap α) (vs : List (List α)) :
    (h.allocList vs).1.cells.length = h.cells.length + vs.length := by
  simp [allocList]

end Heap

-- sanity: learning "hi" with the defaults produces the two actual windows
example :
    SChain.corpusVal SChain.hiState.1 SChain.hiState.2 =
    [["%startf% %startf% ", "hi", "%endf%"], ["hi", "%endf%"]] := by decide

namespace SChain

/-- The `generate` loop of the string variant only ever writes to the
local `words` cell `w`: every other heap cell is untouched. -/
theorem genLoopS_read_ne (c : Chain) (oracle : Nat → Nat) :
    ∀ (fuel w k : Nat) (h : Heap String) (r : Nat), r ≠ w →
      ((genLoop c oracle fuel w k h).1).read r = h.read r := by
  intro fuel
  induction fuel with
  | zero => intro w k h r hne; rfl
  | succ fuel ih =>
    intro w k h r hne
    simp only [genLoop]
    split
    · rfl
    · split
      · exact (Heap.read_write_ne _ _ (Ne.symm hne)).trans (Heap.read_write_ne _ _ (Ne.symm hne))
      · split
        · rfl
        · exact (ih w (k + 1) _ r hne).trans (Heap.read_write_ne _ _ (Ne.symm hne))

end SChain

namespace IChain

/-- The `generate` loop of the indexed variant only ever writes to the
local `sentence` cell `s`: every other heap cell is untouched. -/
theorem genLoopI_read_ne (c : Chain) (grams : Nat) (backward : Bool) (oracle : Nat → Nat) :
    ∀ (fuel s k : Nat) (done : Bool) (h : Heap Nat) (r : Nat), r ≠ s →
      ((genLoop c grams backward oracle fuel s k done h).1).read r = h.read r := by
  intro fuel
  induction fuel with
  | zero => intro s k done h r hne; rfl
  | succ fuel ih =>
    intro s k done h r hne
    simp only [genLoop]
    split
    · split
      · exact Heap.read_write_ne _ _ (Ne.symm hne)
      · rfl
    · split
      · rfl
      · split
        · rfl
        · exact (ih s (k + 1) _ _ r hne).trans (Heap.read_write_ne _ _ (Ne.symm hne))

end IChain

/-- C10: in both variants, a `generate` call — whatever start token or
config is supplied and however it ends (string, crash, or fuel-out) —
leaves the chain's observable state unchanged.  The chain record itself
(`nGrams`/`start`/`end`/`separation`, resp. `dictionary`/`config`) is
never assigned by the source and is not returned modified by the
embedding; the mutable part of the state is the heap-resident corpus,
and both corpora read back unchanged after the call.  The hypothesis is
well-formedness: the chain's corpus references point into the heap. -/
theorem generate_leaves_state_unchanged :
    (∀ (c : SChain.Chain) (startW : String) (oracle : Nat → Nat) (fuel : Nat)
        (h : Heap String), (∀ r ∈ c.corpusRefs, r < h.cells.length) →
      SChain.corpusVal c (SChain.generate c oracle fuel h startW).1 = SChain.corpusVal c h)
    ∧ (∀ (c : IChain.Chain) (cfg : IChain.GenCfg) (oracle : Nat → Nat) (fuel : Nat)
        (h : Heap Nat), (∀ r ∈ c.corpusRefs, r < h.cells.length) →
      IChain.corpusVal c (IChain.generate c cfg oracle fuel h).1 = IChain.corpusVal c h) := by
  constructor
  · intro c startW oracle fuel h hw
    unfold SChain.generate
    by_cases hc : c.corpusRefs.length = 0
    · simp [hc]
    · simp only [if_neg hc]
      refine List.map_congr_left ?_
      intro r hr
      have hrlt := hw r hr
      have hne : r ≠ (h.alloc [startW]).2 := by
        simp only [Heap.alloc]
        omega
      rw [SChain.genLoopS_read_ne c oracle fuel _ 0 _ r hne]
      exact Heap.read_append h [[startW]] hrlt
  · intro c cfg oracle fuel h hw
    unfold IChain.generate IChain.generateResolved
    split
    · rfl
    · simp only [Heap.alloc]
      have hold : ∀ r ∈ c.corpusRefs, (Heap.mk (h.cells ++ [[]])).read r = h.read r :=
        fun r hr => Heap.read_append h [[]] (hw r hr)
      split
      · split
        · exact List.map_congr_left hold
        · split
          · exact List.map_congr_left hold
          · refine List.map_congr_left ?_
            intro r hr
            have hne : r ≠ h.cells.length := by have := hw r hr; omega
            rw [IChain.genLoopI_read_ne c _ _ oracle fuel _ 1 false _ r hne]
            rw [Heap.read_pushCell_ne _ _ (fun e => hne e.symm)]
            exact hold r hr
      · refine List.map_congr_left ?_
        intro r hr
        have hne : r ≠ h.cells.length := by have := hw r hr; omega
        rw [IChain.genLoopI_read_ne c _ _ oracle fuel _ 0 false _ r hne]
        rw [Heap.read_pushCell_ne _ _ (fun e => hne e.symm)]
        exact hold r hr

/-- Witness for `generate_leaves_state_unchanged`: both parts applied at
concrete learned states. -/
theorem generate_leaves_state_unchanged_witness :
    ((∀ r ∈ SChain.hiState.1.corpusRefs, r < SChain.hiState.2.cells.length) ∧
      SChain.corpusVal SChain.hiState.1
        (SChain.generate SChain.hiState.1 (fun _ => 0) 3 SChain.hiState.2 "hi").1 =
      SChain.corpusVal SChain.hiState.1 SChain.hiState.2)
    ∧ ((∀ r ∈ IChain.tState.1.corpusRefs, r < IChain.tState.2.cells.length) ∧
      IChain.corpusVal IChain.tState.1
        (IChain.generate IChain.tState.1 {} (fun _ => 0) 3 IChain.tState.2).1 =
      IChain.corpusVal IChain.tState.1 IChain.tState.2) :=
  ⟨⟨by decide, generate_leaves_state_unchanged.1 SChain.hiState.1 "hi" (fun _ => 0) 3
      SChain.hiState.2 (by decide)⟩,
   ⟨by decide, generate_leaves_state_unchanged.2 IChain.tState.1 {} (fun _ => 0) 3
      IChain.tState.2 (by decide)⟩⟩

namespace IChain

/-- Interning a word list from accumulator `(s, d)`: the dictionary only
grows, every accumulated index stays valid for the final dictionary, and
no duplicate entry is ever pushed. -/
theorem internStep_fold_spec :
    ∀ (ws : List String) (s : List Nat) (d : List String),
      d.length ≤ (ws.foldl internStep (s, d)).2.length
      ∧ ((∀ i ∈ s, i < d.length) →
          ∀ i ∈ (ws.foldl internStep (s, d)).1, i < (ws.foldl internStep (s, d)).2.length)
      ∧ (d.Nodup → (ws.foldl internStep (s, d)).2.Nodup) := by
  intro ws
  induction ws with
  | nil =>
    intro s d
    exact ⟨Nat.le_refl _, fun hs => hs, fun hn => hn⟩
  | cons w ws ih =>
    intro s d
    rw [List.foldl_cons]
    by_cases hc : d.contains w = true
    · simp only [internStep]
      rw [if_pos hc]
      obtain ⟨h1, h2, h3⟩ := ih (s ++ [List.indexOf w d]) d
      refine ⟨h1, fun hs => h2 ?_, h3⟩
      intro i hi
      rcases List.mem_append.1 hi with hm | hm
      · exact hs i hm
      · rw [List.mem_singleton.1 hm]
        exact List.indexOf_lt_length.2 (by simpa using hc)
    · simp only [internStep]
      rw [if_neg hc]
      obtain ⟨h1, h2, h3⟩ := ih (s ++ [d.length]) (d ++ [w])
      have hlen : d.length ≤ (d ++ [w]).length := by simp
      refine ⟨le_trans hlen h1, fun hs => h2 ?_, fun hn => h3 ?_⟩
      · intro i hi
        rcases List.mem_append.1 hi with hm | hm
        · have := hs i hm
          simp only [List.length_append, List.length_singleton]
          omega
        · rw [List.mem_singleton.1 hm]
          simp
      · have hw : w ∉ d := by simpa using hc
        simp [List.nodup_append, hn, hw]

/-- `update` preserves the indexed well-formedness invariant. -/
theorem update_preserves_inv (c : Chain) (t : String) (h : Heap Nat) (hinv : Inv c h) :
    Inv (update c t h).1 (update c t h).2 := by
  obtain ⟨href, hidx, hnd⟩ := hinv
  obtain ⟨f1, f2, f3⟩ := internStep_fold_spec (jsSplit t " ") [] c.dictionary
  simp only [update, Heap.alloc]
  refine ⟨?_, ?_, ?_⟩
  · intro r hr
    rcases List.mem_append.1 hr with hm | hm
    · have := href r hm
      simp only [List.length_append, List.length_singleton]
      omega
    · rw [List.mem_singleton.1 hm]
      simp
  · intro r hr i hi
    rcases List.mem_append.1 hr with hm | hm
    · rw [Heap.read_append h _ (href r hm)] at hi
      exact lt_of_lt_of_le (hidx r hm i hi) f1
    · rw [List.mem_singleton.1 hm] at hi
      have hrd : (Heap.mk (h.cells ++ [((jsSplit t " ").foldl internStep ([], c.dictionary)).1])).read
          h.cells.length = ((jsSplit t " ").foldl internStep ([], c.dictionary)).1 := by
        simp [Heap.read, List.getD_append_right _ _ _ _ (Nat.le_refl _)]
      rw [hrd] at hi
      exact f2 (by simp) i hi
  · exact f3 hnd

/-- The invariant holds in every state reachable from the default
constructor by `update` calls. -/
theorem runUpdates_inv (texts : List String) :
    Inv (runUpdates texts).1 (runUpdates texts).2 := by
  have H : ∀ (ts : List String) (p : Chain × Heap Nat), Inv p.1 p.2 →
      Inv (ts.foldl (fun p t => update p.1 t p.2) p).1
        (ts.foldl (fun p t => update p.1 t p.2) p).2 := by
    intro ts
    induction ts with
    | nil => intro p hp; exact hp
    | cons t ts ih =>
      intro p hp
      rw [List.foldl_cons]
      exact ih (update p.1 t p.2) (update_preserves_inv p.1 t p.2 hp)
  exact H texts (construct, Heap.empty Nat)
    ⟨by intro r hr; simp [construct] at hr, by intro r hr; simp [construct] at hr,
      by simp [construct]⟩

end IChain

/-- C8: Indexed-Dictionary invariant — in every chain state reachable
from a default-constructed chain by any sequence of `update` calls,
every integer appearing in any corpus sentence is a valid dictionary
position, and the dictionary contains no duplicate entries. -/
theorem indexed_corpus_indices_valid_and_dictionary_nodup :
    ∀ texts : List String,
      (∀ sent ∈ IChain.corpusVal (IChain.runUpdates texts).1 (IChain.runUpdates texts).2,
        ∀ i ∈ sent, i < (IChain.runUpdates texts).1.dictionary.length)
      ∧ (IChain.runUpdates texts).1.dictionary.Nodup := by
  intro texts
  obtain ⟨h1, h2, h3⟩ := IChain.runUpdates_inv texts
  refine ⟨?_, h3⟩
  intro sent hsent i hi
  obtain ⟨r, hr, rfl⟩ := List.mem_map.1 hsent
  exact h2 r hr i hi

/-- A random draw over a one-element candidate list is the element,
whatever the oracle returns. -/
theorem getRandom_singleton (a : α) (r : Nat) : getRandom [a] r = some a := by
  simp [getRandom, Nat.mod_one]

/-- A random draw over the empty candidate list is `undefined`. -/
theorem getRandom_nil (r : Nat) : getRandom ([] : List α) r = none := by
  simp [getRandom, List.get?_nil]

/-- If the current tail is not the end delimiter and no corpus window
starts with it, the next loop iteration of the string variant crashes
(`nextChains[...]` is `undefined`), whatever the oracle says. -/
theorem SChain.genLoop_crash (c : SChain.Chain) (oracle : Nat → Nat) (fuel w k : Nat)
    (h : Heap String) (last : String)
    (hlast : (h.read w).getLast? = some last)
    (hne : ¬ last = c.endTok)
    (hfil : c.corpusRefs.filter (fun r => (h.read r).head? = some last) = []) :
    (SChain.genLoop c oracle (fuel + 1) w k h).2 = .crash := by
  simp only [SChain.genLoop, hlast]
  rw [if_neg hne]
  simp only [hfil, getRandom_nil]

/-- C2 (code bug): with the defaults (`n = 3`, start `'%startf%'`, end
`'%endf%'`, separation `' '`), after `update('hi')` the call
`generate()` does not return `"hi"`: no corpus window's first element
equals `'%startf%'` (the first window starts with the single array
element `'%startf% %startf% '`), so `nextChains` is empty,
`nextChains[...]` is `undefined`, and `.slice(1)` throws — the run
crashes for every oracle and every sufficient fuel.  The repository's
own test (`chain.update('hi'); chain.generate() === 'hi'`) asserts the
claimed behaviour. -/
theorem string_generate_default_crashes :
    (∀ (oracle : Nat → Nat) (fuel : Nat),
      (SChain.generate SChain.hiState.1 oracle (fuel + 1) SChain.hiState.2).2 = .crash)
    ∧ (∀ (oracle : Nat → Nat) (fuel : Nat),
      (SChain.generate SChain.hiState.1 oracle fuel SChain.hiState.2).2 ≠ .ok "hi") := by
  have key : ∀ (oracle : Nat → Nat) (fuel : Nat),
      (SChain.generate SChain.hiState.1 oracle (fuel + 1) SChain.hiState.2).2 = .crash := by
    intro oracle fuel
    show (SChain.genLoop SChain.hiState.1 oracle (fuel + 1) 2 0
      ⟨[["%startf% %startf% ", "hi", "%endf%"], ["hi", "%endf%"], ["%startf%"]]⟩).2 = .crash
    exact SChain.genLoop_crash _ oracle fuel 2 0 _ "%startf%" (by decide) (by decide) (by decide)
  refine ⟨key, ?_⟩
  intro oracle fuel
  cases fuel with
  | zero =>
    intro hcontra
    have hout : (SChain.generate SChain.hiState.1 oracle 0 SChain.hiState.2).2 = .out := rfl
    rw [hout] at hcontra
    exact GenRes.noConfusion hcontra
  | succ n =>
    rw [key oracle n]
    exact fun hcontra => GenRes.noConfusion hcontra

/-- C3 counterexample: the claim says the Indexed-Dictionary variant
with the default config returns the empty string on an empty corpus; on
the freshly constructed chain it crashes instead (`_getRandom` of the
empty corpus is `undefined` and the element access throws). -/
theorem empty_corpus_indexed_generate_crashes_cex :
    (IChain.generate IChain.construct {} (fun _ => 0) 5 (Heap.empty Nat)).2 = .crash
    ∧ GenRes.crash ≠ .ok "" := by decide

/-- C3 (amended): generation on a freshly constructed chain that has
learned nothing: the String-Corpus variant returns the empty string for
every start token (its `generate` guards `corpus.length === 0`); the
Indexed-Dictionary variant with the default config has no such guard on
the seeding random draw and performs an undefined member access (crash)
instead of returning a string. -/
theorem empty_corpus_generation :
    (∀ (nGrams : Nat) (startTok endTok sep startW : String) (oracle : Nat → Nat)
        (fuel : Nat) (h : Heap String),
      (SChain.generate (SChain.construct nGrams startTok endTok sep) oracle fuel h startW).2
        = .ok "")
    ∧ (∀ (oracle : Nat → Nat) (fuel : Nat) (h : Heap Nat),
      (IChain.generate IChain.construct {} oracle fuel h).2 = .crash) := by
  constructor
  · intro nGrams startTok endTok sep startW oracle fuel h
    simp [SChain.generate, SChain.construct]
  · intro oracle fuel h
    simp [IChain.generate, IChain.generateResolved, IChain.construct,
      IChain.jsOrStr, IChain.jsOrNat, IChain.jsOrBool, getRandom_nil]

/-- C4 (code bug): the claimed invariant "every stored window has length
exactly n" fails on the very first reachable state: with the defaults
(`n = 3`), `update('hi')` stores the window `['hi', '%endf%']` of
length 2 (the loop bound `index < words.length - 1` lets `slice` clamp
at the tail, and the padding itself is wrong — one concatenated start
element and a single end element).  The older implementation shipped in
the repository's generated docs pads with `n` start and `n` end
delimiters and stops `n - 1` early, so all its windows have length `n`;
`src/index.js` deviates from it. -/
theorem string_window_length_violation :
    SChain.hiState.1.nGrams = 3
    ∧ SChain.corpusVal SChain.hiState.1 SChain.hiState.2 =
        [["%startf% %startf% ", "hi", "%endf%"], ["hi", "%endf%"]]
    ∧ ¬ (∀ w ∈ SChain.corpusVal SChain.hiState.1 SChain.hiState.2,
          w.length = SChain.hiState.1.nGrams) := by decide

/-- C1 counterexample: the claim predicts that learning `'hi'` with the
defaults (`n = 3`, `T = 1`) appends `T + n = 4` windows of length 3
each; the code appends 2 windows. -/
theorem string_update_window_count_cex :
    (jsSplit "hi" " ").length = 1
    ∧ SChain.hiState.1.nGrams = 3
    ∧ (SChain.corpusVal SChain.hiState.1 SChain.hiState.2).length = 2
    ∧ (SChain.corpusVal SChain.hiState.1 SChain.hiState.2).length ≠ 1 + 3 := by decide

/-- C1 (amended): one `update` call on a text that is non-empty after
trimming appends exactly `len(padded) - 1 = T + 1` windows, where
`padded` is the array `[(start + separation).repeat(n - 1)] ++
text.split(separation) ++ [end]` (ONE concatenated start element, a
single end element) and `T` is the number of split tokens; the `i`-th
appended window is `padded.slice(i, i + n)` (clamped at the tail) for
each `i` in `[0, len(padded) - 1)`. -/
theorem string_update_appends_windows (c : SChain.Chain) (text : String) (h : Heap String)
    (hw : ∀ r ∈ c.corpusRefs, r < h.cells.length)
    (ht : ¬ (jsTrim text).length = 0) :
    SChain.corpusVal (SChain.update c text h).1 (SChain.update c text h).2
      = SChain.corpusVal c h
        ++ (List.range ((SChain.paddedWords c text).length - 1)).map
            (fun i => ((SChain.paddedWords c text).drop i).take c.nGrams)
    ∧ (SChain.update c text h).1.corpusRefs.length
        = c.corpusRefs.length + ((jsSplit text c.separation).length + 1)
    ∧ (SChain.paddedWords c text).length - 1 = (jsSplit text c.separation).length + 1 := by
  have hlen : (SChain.paddedWords c text).length = (jsSplit text c.separation).length + 2 := by
    simp [SChain.paddedWords]
  refine ⟨?_, ?_, by omega⟩
  · simp only [SChain.update]
    rw [if_neg ht]
    simp only [SChain.corpusVal, List.map_append]
    refine congrArg₂ (· ++ ·) ?_ ?_
    · exact List.map_congr_left fun r hr => Heap.allocList_read_old h _ (hw r hr)
    · exact Heap.allocList_reads h _
  · simp only [SChain.update]
    rw [if_neg ht]
    simp [Heap.allocList]
    omega

/-- Witness for `string_update_appends_windows`: the defaults with the
text `'hi'` on the empty heap. -/
theorem string_update_appends_windows_witness :
    (∀ r ∈ SChain.construct.corpusRefs, r < (Heap.empty String).cells.length)
    ∧ ¬ (jsTrim "hi").length = 0
    ∧ SChain.corpusVal (SChain.update SChain.construct "hi" (Heap.empty String)).1
        (SChain.update SChain.construct "hi" (Heap.empty String)).2
      = SChain.corpusVal SChain.construct (Heap.empty String)
        ++ (List.range ((SChain.paddedWords SChain.construct "hi").length - 1)).map
            (fun i => ((SChain.paddedWords SChain.construct "hi").drop i).take
              SChain.construct.nGrams) :=
  ⟨by decide, by decide,
    (string_update_appends_windows SChain.construct "hi" (Heap.empty String)
      (by decide) (by decide)).1⟩

/-- C5: Indexed-Dictionary backward scenario — on a fresh chain that
learned exactly `'hi everyone i am a test OwO'`, the call
`generate({from: 'test', backward: true})` (default `grams = 2`)
returns exactly `'hi everyone i am a test'` for every outcome of the
random source (every candidate list during this walk is a singleton),
for any sufficient fuel. -/
theorem indexed_backward_exact_generation :
    ∀ (oracle : Nat → Nat) (m : Nat),
      (IChain.generate IChain.tState.1 { fromWord := some "test", backward := some true }
        oracle (m + 4) IChain.tState.2).2 = .ok "hi everyone i am a test" := by
  intro oracle m
  simp [IChain.tState, IChain.generate, IChain.generateResolved, IChain.genLoop,
    IChain.update, IChain.construct, IChain.internStep, jsSplit, splitGo,
    getRandom_singleton, IChain.jsOrStr, IChain.jsOrNat, IChain.jsOrBool,
    Heap.alloc, Heap.pushCell, Heap.write, Heap.read, Heap.empty, getRandom, Nat.mod_one]
  decide

/-- C6 counterexample: after learning `'hi am i a test OwO'`,
`generate({from: 'OwO'})` returns the string `'OwO'`, which is a single
token (not "exactly 3 tokens" as the claim states); the `3` in the
repository's test is the CHARACTER length of `'OwO'`. -/
theorem indexed_forward_owo_token_count_cex :
    (IChain.generate IChain.owoState.1 { fromWord := some "OwO" } (fun _ => 0) 6
      IChain.owoState.2).2 = .ok "OwO"
    ∧ (jsSplit "OwO" " ").length ≠ 3 := by decide

/-- C6 (amended): on a fresh chain that learned exactly
`'hi am i a test OwO'`, `generate({from: 'test'})` returns
`'test OwO'` — a string starting with `'test'` — and
`generate({from: 'OwO'})` returns `'OwO'` — a string of exactly 3
CHARACTERS consisting of a single token — for every outcome of the
random source and any sufficient fuel. -/
theorem indexed_forward_scenario :
    ∀ (oracle : Nat → Nat) (m : Nat),
      (IChain.generate IChain.owoState.1 { fromWord := some "test" } oracle (m + 2)
        IChain.owoState.2).2 = .ok "test OwO"
      ∧ "test".data.isPrefixOf ("test OwO").data = true
      ∧ (IChain.generate IChain.owoState.1 { fromWord := some "OwO" } oracle (m + 2)
        IChain.owoState.2).2 = .ok "OwO"
      ∧ ("OwO" : String).length = 3
      ∧ (jsSplit "OwO" " ").length = 1 := by
  intro oracle m
  have hlen1 : ¬ (("test" : String).length = 0) := by decide
  have hlen2 : ¬ (("OwO" : String).length = 0) := by decide
  refine ⟨?_, by decide, ?_, by decide, by decide⟩
  · simp [hlen1, IChain.owoState, IChain.generate, IChain.generateResolved, IChain.genLoop,
      IChain.update, IChain.construct, IChain.internStep, jsSplit, splitGo,
      getRandom_singleton, IChain.jsOrStr, IChain.jsOrNat, IChain.jsOrBool,
      Heap.alloc, Heap.pushCell, Heap.write, Heap.read, Heap.empty, getRandom, Nat.mod_one]
    decide
  · simp [hlen2, IChain.owoState, IChain.generate, IChain.generateResolved, IChain.genLoop,
      IChain.update, IChain.construct, IChain.internStep, jsSplit, splitGo,
      getRandom_singleton, IChain.jsOrStr, IChain.jsOrNat, IChain.jsOrBool,
      Heap.alloc, Heap.pushCell, Heap.write, Heap.read, Heap.empty, getRandom, Nat.mod_one]
    decide

namespace IChain

/-- Resolving an already-resolved `from` field again is a no-op. -/
theorem jsOrStr_idem (x : Option String) (d : String) :
    jsOrStr (some (jsOrStr x d)) d = jsOrStr x d := by
  cases x with
  | none =>
    simp only [jsOrStr]
    split <;> simp_all
  | some s =>
    by_cases hs : s = ""
    · simp only [jsOrStr, hs]
      split <;> simp_all
    · simp only [jsOrStr, if_neg hs]

/-- Resolving an already-resolved `grams` field again is a no-op. -/
theorem jsOrNat_idem (x : Option Nat) (d : Nat) :
    jsOrNat (some (jsOrNat x d)) d = jsOrNat x d := by
  cases x with
  | none =>
    simp only [jsOrNat]
    split <;> simp_all
  | some k =>
    by_cases hk : k = 0
    · simp only [jsOrNat, hk]
      split <;> simp_all
    · simp only [jsOrNat, if_neg hk]

/-- Resolving an already-resolved `backward` field again is a no-op. -/
theorem jsOrBool_idem (x : Option Bool) (d : Bool) :
    jsOrBool (some (jsOrBool x d)) d = jsOrBool x d := by
  cases x with
  | none => cases d <;> rfl
  | some b => cases b <;> cases d <;> rfl

end IChain

/-- C9: `generate` resolves `from`, `grams` and `backward` independently
— the call behaves exactly as if each field were replaced by its
individually resolved value (supplied value when truthy, stored default
otherwise); in particular a supplied `grams = 0` is indistinguishable
from an absent `grams`, and an empty config uses the stored defaults for
all three fields. -/
theorem indexed_generate_config_resolution :
    ∀ (c : IChain.Chain) (cfg : IChain.GenCfg) (oracle : Nat → Nat) (fuel : Nat)
      (h : Heap Nat),
      IChain.generate c { cfg with grams := some 0 } oracle fuel h
        = IChain.generate c { cfg with grams := none } oracle fuel h
      ∧ IChain.generate c cfg oracle fuel h
        = IChain.generate c
            ⟨some (IChain.jsOrStr cfg.fromWord c.config.fromWord),
              some (IChain.jsOrNat cfg.grams c.config.grams),
              some (IChain.jsOrBool cfg.backward c.config.backward)⟩ oracle fuel h
      ∧ IChain.generate c {} oracle fuel h
        = IChain.generateResolved c c.config.fromWord c.config.grams c.config.backward
            oracle fuel h := by
  intro c cfg oracle fuel h
  refine ⟨?_, ?_, ?_⟩
  · simp [IChain.generate, IChain.jsOrNat]
  · simp [IChain.generate, IChain.jsOrStr_idem, IChain.jsOrNat_idem, IChain.jsOrBool_idem]
  · simp [IChain.generate, IChain.jsOrStr, IChain.jsOrNat, IChain.jsOrBool]

/-- C7 counterexample: for the String-Corpus variant the round trip
`fromJSON(toJSON(chain))` shares its window arrays with the original
(`[...corpus]` copies only the outer array), so appending a token to the
copy's first window mutates the original chain's corpus. -/
theorem roundtrip_string_aliasing_cex :
    SChain.corpusVal SChain.hiState.1
        (SChain.hiState.2.pushCell
          ((SChain.fromJSON (SChain.toJSON SChain.hiState.1)).corpusRefs.getD 0 0) "x")
      ≠ SChain.corpusVal SChain.hiState.1 SChain.hiState.2 := by decide

/-- C7 (amended): the round trips preserve all observable values in
both variants — `fromJSON(toJSON(chain))` equals the original string
chain (given `nGrams > 1`, as the constructor guarantees), and
`new MarkovChain(chain.toJSON())` reproduces corpus, dictionary and
config of the indexed chain.  The deep-copy (no-aliasing) half of the
claim holds ONLY for the indexed variant, whose copies live in fresh
cells: mutating any copy row leaves the original unchanged; in the
string variant the copy's windows are the original's cells, and
appending a token to any of them mutates the original. -/
theorem roundtrip_deep_copy :
    (∀ c : SChain.Chain, c.nGrams > 1 → SChain.fromJSON (SChain.toJSON c) = c)
    ∧ (∀ (c : IChain.Chain) (h : Heap Nat), (∀ r ∈ c.corpusRefs, r < h.cells.length) →
      IChain.corpusVal (IChain.constructFrom (IChain.toJSON c h).2 (IChain.toJSON c h).1).1
          (IChain.constructFrom (IChain.toJSON c h).2 (IChain.toJSON c h).1).2
        = IChain.corpusVal c h
      ∧ (IChain.constructFrom (IChain.toJSON c h).2 (IChain.toJSON c h).1).1.dictionary
        = c.dictionary
      ∧ (IChain.constructFrom (IChain.toJSON c h).2 (IChain.toJSON c h).1).1.config
        = c.config
      ∧ ∀ (t : Nat),
          ∀ r' ∈ (IChain.constructFrom (IChain.toJSON c h).2 (IChain.toJSON c h).1).1.corpusRefs,
          IChain.corpusVal c
              (((IChain.constructFrom (IChain.toJSON c h).2 (IChain.toJSON c h).1).2).pushCell r' t)
            = IChain.corpusVal c h)
    ∧ (∀ (c : SChain.Chain) (h : Heap String) (t : String),
        (∀ r ∈ c.corpusRefs, r < h.cells.length) →
      ∀ r' ∈ (SChain.fromJSON (SChain.toJSON c)).corpusRefs,
        SChain.corpusVal c (h.pushCell r' t) ≠ SChain.corpusVal c h) := by
  refine ⟨?_, ?_, ?_⟩
  · intro c hn
    simp [SChain.fromJSON, SChain.toJSON, SChain.construct, hn]
  · intro c h hw
    have hv : ((h.allocList (c.corpusRefs.map h.read)).2).map
        ((h.allocList (c.corpusRefs.map h.read)).1).read = c.corpusRefs.map h.read :=
      Heap.allocList_reads h _
    refine ⟨?_, rfl, rfl, ?_⟩
    · simp only [IChain.constructFrom, IChain.toJSON, IChain.corpusVal]
      rw [hv]
      exact Heap.allocList_reads _ _
    · intro t r' hr'
      simp only [IChain.constructFrom, IChain.toJSON] at hr' ⊢
      rw [hv] at hr'
      have hge : ((h.allocList (c.corpusRefs.map h.read)).1).cells.length ≤ r' :=
        Heap.allocList_mem_ge _ _ hr'
      have hlen : h.cells.length ≤ ((h.allocList (c.corpusRefs.map h.read)).1).cells.length := by
        rw [Heap.allocList_length]
        omega
      refine List.map_congr_left ?_
      intro r hr
      have hner : r' ≠ r := by
        have := hw r hr
        omega
      rw [Heap.read_pushCell_ne _ _ hner]
      rw [hv]
      rw [Heap.allocList_read_old _ _ (lt_of_lt_of_le (hw r hr) hlen)]
      exact Heap.allocList_read_old h _ (hw r hr)
  · intro c h t hw r' hr' heq
    have hr'' : r' ∈ c.corpusRefs := hr'
    have hp := List.map_inj_left.1 heq r' hr''
    rw [Heap.pushCell, Heap.read_write_self _ _ (hw r' hr'')] at hp
    have := congrArg List.length hp
    simp at this

/-- Witness for `roundtrip_deep_copy`: all three parts applied at
concrete learned states. -/
theorem roundtrip_deep_copy_witness :
    (SChain.hiState.1.nGrams > 1
      ∧ SChain.fromJSON (SChain.toJSON SChain.hiState.1) = SChain.hiState.1)
    ∧ ((∀ r ∈ IChain.tState.1.corpusRefs, r < IChain.tState.2.cells.length)
      ∧ IChain.corpusVal
          (IChain.constructFrom (IChain.toJSON IChain.tState.1 IChain.tState.2).2
            (IChain.toJSON IChain.tState.1 IChain.tState.2).1).1
          (IChain.constructFrom (IChain.toJSON IChain.tState.1 IChain.tState.2).2
            (IChain.toJSON IChain.tState.1 IChain.tState.2).1).2
        = IChain.corpusVal IChain.tState.1 IChain.tState.2)
    ∧ ((0 : Nat) ∈ (SChain.fromJSON (SChain.toJSON SChain.hiState.1)).corpusRefs
      ∧ SChain.corpusVal SChain.hiState.1 (SChain.hiState.2.pushCell 0 "x")
        ≠ SChain.corpusVal SChain.hiState.1 SChain.hiState.2) :=
  ⟨⟨by decide, roundtrip_deep_copy.1 SChain.hiState.1 (by decide)⟩,
    ⟨by decide, (roundtrip_deep_copy.2.1 IChain.tState.1 IChain.tState.2 (by decide)).1⟩,
    ⟨by decide, roundtrip_deep_copy.2.2 SChain.hiState.1 SChain.hiState.2 "x" (by decide)
      0 (by decide)⟩⟩
